import Mathlib

/-!
Shallow embedding of the NUMERIC wire-format encoders of
src/connector-mango/src/mango.rs: the exact integer logarithm module
int_log, and the three ToSql implementations SqlNumericU64,
SqlNumericI128 and SqlNumericI80F48.

Machine integers are modelled as Nat (unsigned) and Int (signed).  All
intermediate arithmetic of the source stays in range of its machine types
(established by the range lemmas below), so no wrapping is inserted except
where the source itself masks or casts: the 0xFFFF mask is kept literally,
and the integer narrowing casts inside int_log are modelled as explicit
mod 2^32 / mod 2^64.  Signed overflow semantics are those of a release
build (wrapping on overflow); the one place this matters is abs of a
minimum value, documented at its use sites.

The SqlNumericI80F48 encoder can panic (at raw = -2^127) and therefore
returns Option; the other two cannot and return plain values.  All source
functions return Result of IsNull and every return site is Ok(IsNull::No);
this is modelled by pairing the written wire record with the returned
IsNull value.
-/

namespace int_log

/-- Rust const fn less_than_8 (mango.rs lines 83-98), contract
0 < val < 100_000_000: floor log10 by successive comparisons. -/
def less_than_8 (val : Nat) : Nat :=
  let val2 := if 10000 ≤ val then val / 10000 else val
  let log := if 10000 ≤ val then 4 else 0
  log + (if 1000 ≤ val2 then 3 else if 100 ≤ val2 then 2 else if 10 ≤ val2 then 1 else 0)

/-- Rust const fn less_than_16 (mango.rs lines 101-108), contract
0 < val < 10^16.  The val as u32 cast is modelled as mod 2^32. -/
def less_than_16 (val : Nat) : Nat :=
  let val2 := if 100000000 ≤ val then val / 100000000 else val
  let log := if 100000000 ≤ val then 8 else 0
  log + less_than_8 (val2 % 2 ^ 32)

/-- Rust pub const fn u64 (mango.rs lines 111-118), contract
0 < val ≤ u64::MAX. -/
def u64 (val : Nat) : Nat :=
  let val2 := if 10000000000000000 ≤ val then val / 10000000000000000 else val
  let log := if 10000000000000000 ≤ val then 16 else 0
  log + less_than_16 val2

/-- Rust pub const fn u128 (mango.rs lines 121-133), contract
0 < val ≤ u128::MAX.  The casts val as u32 / val as u64 are modelled as
mod 2^32 / mod 2^64. -/
def u128 (val : Nat) : Nat :=
  if 100000000000000000000000000000000 ≤ val then
    32 + less_than_8 (val / 100000000000000000000000000000000 % 2 ^ 32)
  else
    let val2 := if 10000000000000000 ≤ val then val / 10000000000000000 else val
    let log := if 10000000000000000 ≤ val then 16 else 0
    log + less_than_16 (val2 % 2 ^ 64)

end int_log

/-- Fuel-driven floor log10 helper, used only to give an executable model of
the external fixed crate logarithm; the fuel is always sufficient because
n < 10^n. -/
def flog10Aux : Nat → Nat → Nat
  | 0, _ => 0
  | fuel + 1, n => if n < 10 then 0 else flog10Aux fuel (n / 10) + 1

/-- Floor of log10 on positive naturals (0 for 0). -/
def natLog10 (n : Nat) : Nat := flog10Aux n n

/-- Modelled from the documented semantics of the external fixed crate
(a dependency, not part of this repository): I80F48::int_log10 returns the
integer base-10 logarithm of the value rounded down, i.e.
floor (log10 (a / 2^48)) for a positive value with raw bits a.  Because
a / 2^48 ≥ 2^-48 > 10^-15, this equals
floor (log10 (floor (a * 10^15 / 2^48))) - 15, which is computed here
exactly in integer arithmetic (lemma fixedIntLog10_sandwich below proves
the defining floor-log10 inequalities). -/
def fixedIntLog10 (a : Nat) : Int := (natLog10 (a * 10 ^ 15 / 2 ^ 48) : Int) - 15

/-- The postgres_types IsNull value returned by to_sql. -/
inductive IsNull where
  | yes
  | no
deriving DecidableEq

/-- One encoded NUMERIC wire record: the fields written by put_u16 and
put_i16, in source order.  Each entry of groups is the 16-bit word written
by put_i16 v as i16; in every reachable state it is below 10000 < 2^15,
so it also equals the signed value written. -/
structure WireRecord where
  num_groups : Nat
  weight : Int
  sign : Nat
  dscale : Nat
  groups : List Nat
deriving DecidableEq

/-- The digit-group emission loop of the encoders, shared verbatim by all
three (mango.rs lines 55-61, 168-173 and 212-217):
for weight in (0..=w).rev(), v = (ip / 10000^weight) & 0xFFFF is pushed
and ip -= v * 10000^weight.  The truncated Nat subtraction agrees with the
source subtraction because v ≤ ip / 10000^weight always, so
v * 10000^weight ≤ ip.  The fractional loop of the I80F48 encoder
(lines 62-68) is the same loop on the rescaled fractional magnitude with
w = 4 + (highest fractional weight), since its shift is 10000^(4+weight)
for weight from min(first_group_weight, -1) down to -4. -/
def groupLoop : Nat → Nat → List Nat
  | ip, 0 => [ip &&& 0xFFFF]
  | ip, w + 1 =>
    let shift := 10000 ^ (w + 1)
    let v := ip / shift &&& 0xFFFF
    v :: groupLoop (ip - v * shift) w

/-- Base-10000 value of a group list, most significant first:
groupValue [g0, g1, ..., gk] = g0 * 10000^k + ... + gk. -/
def groupValue : List Nat → Nat
  | [] => 0
  | g :: gs => g * 10000 ^ gs.length + groupValue gs

namespace SqlNumericU64

/-- Rust impl ToSql for SqlNumericU64, fn to_sql (mango.rs lines 189-220).
Total.  first_group_weight is ((decimals as f64) / 4.0).floor() as i16 in
the source; decimals ≤ 19 so the f64 arithmetic is exact and equals Nat
division by 4. -/
def to_sql (v : Nat) : WireRecord × IsNull :=
  let decimals : Nat := if v ≠ 0 then int_log.u64 v else 0
  let first_group_weight : Nat := decimals / 4
  let num_groups : Nat := first_group_weight + 1
  ({ num_groups := num_groups
     weight := first_group_weight
     sign := 0
     dscale := 0
     groups := groupLoop v first_group_weight }, IsNull.no)

end SqlNumericU64

namespace SqlNumericI128

/-- Rust impl ToSql for SqlNumericI128, fn to_sql (mango.rs lines 140-176).
The source computes self.0.abs() as u128; under release overflow semantics
(-2^127).wrapping_abs() as u128 = 2^127, so the magnitude is natAbs for
every input including the minimum.  decimals ≤ 38, so the f64 floor
division by 4 is exact and equals Nat division. -/
def to_sql (v : Int) : WireRecord × IsNull :=
  let abs_val : Nat := v.natAbs
  let decimals : Nat := if v ≠ 0 then int_log.u128 abs_val else 0
  let first_group_weight : Nat := decimals / 4
  let num_groups : Nat := first_group_weight + 1
  ({ num_groups := num_groups
     weight := first_group_weight
     sign := if v < 0 then 0x4000 else 0
     dscale := 0
     groups := groupLoop abs_val first_group_weight }, IsNull.no)

end SqlNumericI128

namespace SqlNumericI80F48

/-- Rust impl ToSql for SqlNumericI80F48, fn to_sql (mango.rs lines 17-71),
taken on the raw bits of the I80F48 argument (value = raw / 2^48).
none models the panic at I80F48::MIN (raw = -2^127): abs() overflows
there (panics under debug assertions; in release it wraps to the negative
minimum itself, and int_log10, which requires a positive argument, then
panics).  The fixed crate operations are modelled from their documented
semantics: int_log10 is floor log10 of the value (fixedIntLog10 above);
abs_val.int().to_num::<u128>() is a / 2^48; frac() is (a mod 2^48) / 2^48;
I80F48::from_num(1e16) is exactly 10^16 (1e16 is exact in f64 and fits the
80 integer bits); the fixed multiplication frac() * 10^16 is exact (raw
result (a mod 2^48) * 10^16 < 2^127); and to_num::<u64>() truncates,
giving (a mod 2^48) * 10^16 / 2^48 < 10^16. -/
def to_sql (raw : Int) : Option (WireRecord × IsNull) :=
  if raw = 0 then
    some ({ num_groups := 1, weight := 0, sign := 0, dscale := 0, groups := [0] }, IsNull.no)
  else if raw = -(2 ^ 127) then
    none
  else
    let a : Nat := raw.natAbs
    let decimals : Int := fixedIntLog10 a
    let first_group_weight : Int := Int.fdiv decimals 4
    let last_group_weight : Int := -4
    let num_groups : Nat := (first_group_weight - last_group_weight + 1).toNat
    let int_part : Nat := a / 2 ^ 48
    let frac_part : Nat := a % 2 ^ 48 * 10 ^ 16 / 2 ^ 48
    let intGroups : List Nat :=
      if first_group_weight < 0 then [] else groupLoop int_part first_group_weight.toNat
    let hi : Int := min first_group_weight (-1)
    let fracGroups : List Nat :=
      if hi < -4 then [] else groupLoop frac_part (4 + hi).toNat
    some ({ num_groups := num_groups
            weight := first_group_weight
            sign := if raw < 0 then 0x4000 else 0
            dscale := 16
            groups := intGroups ++ fracGroups }, IsNull.no)

end SqlNumericI80F48

/-- Decimal value denoted by a wire record under the NUMERIC binary-format
semantics: sign * (sum of group_i * 10000^(weight - i)), which regrouped is
sign * groupValue groups * 10000^(weight of the last group). -/
def decodeRecord (r : WireRecord) : ℚ :=
  (if r.sign = 0x4000 then (-1 : ℚ) else 1) * (groupValue r.groups : ℚ) *
    (10000 : ℚ) ^ (r.weight - ((r.groups.length : Int) - 1))

/-!
Correctness of the int_log module: each stage returns the floor of log10,
characterised by the power-of-ten sandwich 10^l ≤ v < 10^(l+1).
-/

lemma less_than_8_bounds {v : Nat} (h1 : 0 < v) (h2 : v < 100000000) :
    10 ^ int_log.less_than_8 v ≤ v ∧ v < 10 ^ (int_log.less_than_8 v + 1) := by
  simp only [int_log.less_than_8]
  split_ifs <;> refine ⟨?_, ?_⟩ <;> norm_num <;> omega

lemma less_than_16_bounds {v : Nat} (h1 : 0 < v) (h2 : v < 10000000000000000) :
    10 ^ int_log.less_than_16 v ≤ v ∧ v < 10 ^ (int_log.less_than_16 v + 1) := by
  simp only [int_log.less_than_16]
  by_cases h : 100000000 ≤ v
  · have hd1 : 0 < v / 100000000 := by omega
    have hd2 : v / 100000000 < 100000000 := by omega
    have hmod : v / 100000000 % 2 ^ 32 = v / 100000000 := Nat.mod_eq_of_lt (by omega)
    obtain ⟨l1, l2⟩ := less_than_8_bounds hd1 hd2
    simp only [if_pos h, hmod]
    constructor
    · calc 10 ^ (8 + int_log.less_than_8 (v / 100000000))
          = 100000000 * 10 ^ int_log.less_than_8 (v / 100000000) := by ring
      _ ≤ 100000000 * (v / 100000000) := Nat.mul_le_mul_left _ l1
      _ ≤ v := Nat.mul_div_le v 100000000
    · calc v < 10 ^ (int_log.less_than_8 (v / 100000000) + 1) * 100000000 :=
          (Nat.div_lt_iff_lt_mul (by norm_num)).mp l2
      _ = 10 ^ (8 + int_log.less_than_8 (v / 100000000) + 1) := by ring
  · have hv8 : v < 100000000 := by omega
    have hmod : v % 2 ^ 32 = v := Nat.mod_eq_of_lt (by omega)
    obtain ⟨l1, l2⟩ := less_than_8_bounds h1 hv8
    simp only [if_neg h, hmod, Nat.zero_add]
    exact ⟨l1, l2⟩

lemma u64_bounds {v : Nat} (h1 : 0 < v) (h2 : v < 2 ^ 64) :
    10 ^ int_log.u64 v ≤ v ∧ v < 10 ^ (int_log.u64 v + 1) := by
  simp only [int_log.u64]
  by_cases h : 10000000000000000 ≤ v
  · have hd1 : 0 < v / 10000000000000000 := by omega
    have hd2 : v / 10000000000000000 < 10000000000000000 := by omega
    obtain ⟨l1, l2⟩ := less_than_16_bounds hd1 hd2
    simp only [if_pos h]
    constructor
    · calc 10 ^ (16 + int_log.less_than_16 (v / 10000000000000000))
          = 10000000000000000 * 10 ^ int_log.less_than_16 (v / 10000000000000000) := by ring
      _ ≤ 10000000000000000 * (v / 10000000000000000) := Nat.mul_le_mul_left _ l1
      _ ≤ v := Nat.mul_div_le v 10000000000000000
    · calc v < 10 ^ (int_log.less_than_16 (v / 10000000000000000) + 1) * 10000000000000000 :=
          (Nat.div_lt_iff_lt_mul (by norm_num)).mp l2
      _ = 10 ^ (16 + int_log.less_than_16 (v / 10000000000000000) + 1) := by ring
  · have hv : v < 10000000000000000 := by omega
    obtain ⟨l1, l2⟩ := less_than_16_bounds h1 hv
    simp only [if_neg h, Nat.zero_add]
    exact ⟨l1, l2⟩

lemma u128_bounds {v : Nat} (h1 : 0 < v) (h2 : v < 2 ^ 128) :
    10 ^ int_log.u128 v ≤ v ∧ v < 10 ^ (int_log.u128 v + 1) := by
  simp only [int_log.u128]
  by_cases h32 : 100000000000000000000000000000000 ≤ v
  · have hd1 : 0 < v / 100000000000000000000000000000000 := by omega
    have hd2 : v / 100000000000000000000000000000000 < 100000000 := by omega
    have hmod : v / 100000000000000000000000000000000 % 2 ^ 32
        = v / 100000000000000000000000000000000 := Nat.mod_eq_of_lt (by omega)
    obtain ⟨l1, l2⟩ := less_than_8_bounds hd1 hd2
    simp only [if_pos h32, hmod]
    constructor
    · calc 10 ^ (32 + int_log.less_than_8 (v / 100000000000000000000000000000000))
          = 100000000000000000000000000000000 *
            10 ^ int_log.less_than_8 (v / 100000000000000000000000000000000) := by ring
      _ ≤ 100000000000000000000000000000000 *
            (v / 100000000000000000000000000000000) := Nat.mul_le_mul_left _ l1
      _ ≤ v := Nat.mul_div_le v 100000000000000000000000000000000
    · calc v < 10 ^ (int_log.less_than_8 (v / 100000000000000000000000000000000) + 1) *
            100000000000000000000000000000000 :=
          (Nat.div_lt_iff_lt_mul (by norm_num)).mp l2
      _ = 10 ^ (32 + int_log.less_than_8 (v / 100000000000000000000000000000000) + 1) := by
          ring
  · simp only [if_neg h32]
    by_cases h16 : 10000000000000000 ≤ v
    · have hd1 : 0 < v / 10000000000000000 := by omega
      have hd2 : v / 10000000000000000 < 10000000000000000 := by omega
      have hmod : v / 10000000000000000 % 2 ^ 64 = v / 10000000000000000 :=
        Nat.mod_eq_of_lt (by omega)
      obtain ⟨l1, l2⟩ := less_than_16_bounds hd1 hd2
      simp only [if_pos h16, hmod]
      constructor
      · calc 10 ^ (16 + int_log.less_than_16 (v / 10000000000000000))
            = 10000000000000000 * 10 ^ int_log.less_than_16 (v / 10000000000000000) := by ring
        _ ≤ 10000000000000000 * (v / 10000000000000000) := Nat.mul_le_mul_left _ l1
        _ ≤ v := Nat.mul_div_le v 10000000000000000
      · calc v < 10 ^ (int_log.less_than_16 (v / 10000000000000000) + 1) * 10000000000000000 :=
            (Nat.div_lt_iff_lt_mul (by norm_num)).mp l2
        _ = 10 ^ (16 + int_log.less_than_16 (v / 10000000000000000) + 1) := by ring
    · have hv : v < 10000000000000000 := by omega
      have hmod : v % 2 ^ 64 = v := Nat.mod_eq_of_lt (by omega)
      obtain ⟨l1, l2⟩ := less_than_16_bounds h1 hv
      simp only [if_neg h16, hmod, Nat.zero_add]
      exact ⟨l1, l2⟩

/-!
Properties of the fuel-driven floor log10 and of the fixed-crate logarithm
model.
-/

lemma flog10Aux_bounds {fuel n : Nat} (h1 : 0 < n) (hf : n < 10 ^ fuel) :
    10 ^ flog10Aux fuel n ≤ n ∧ n < 10 ^ (flog10Aux fuel n + 1) := by
  induction fuel generalizing n with
  | zero => simp only [pow_zero] at hf; omega
  | succ f ih =>
    simp only [flog10Aux]
    by_cases h : n < 10
    · simp only [if_pos h, pow_zero, pow_one]
      exact ⟨h1, h⟩
    · simp only [if_neg h]
      have hd1 : 0 < n / 10 := by omega
      have hd2 : n / 10 < 10 ^ f := by
        rw [Nat.div_lt_iff_lt_mul (by norm_num)]
        calc n < 10 ^ (f + 1) := hf
        _ = 10 ^ f * 10 := by ring
      obtain ⟨l1, l2⟩ := ih hd1 hd2
      constructor
      · calc 10 ^ (flog10Aux f (n / 10) + 1) = 10 ^ flog10Aux f (n / 10) * 10 := by ring
        _ ≤ n / 10 * 10 := Nat.mul_le_mul_right _ l1
        _ ≤ n := Nat.div_mul_le_self n 10
      · calc n < 10 ^ (flog10Aux f (n / 10) + 1) * 10 :=
            (Nat.div_lt_iff_lt_mul (by norm_num)).mp l2
        _ = 10 ^ (flog10Aux f (n / 10) + 1 + 1) := by ring

lemma natLog10_bounds {n : Nat} (h1 : 0 < n) :
    10 ^ natLog10 n ≤ n ∧ n < 10 ^ (natLog10 n + 1) :=
  flog10Aux_bounds h1 (Nat.lt_pow_self (by norm_num) n)

/-- The defining floor-log10 inequalities of the fixed-crate logarithm model:
10^d ≤ a / 2^48 < 10^(d+1), stated in integer arithmetic after scaling
by 10^15 (so that both sides are natural numbers even for d down to -15). -/
lemma fixedIntLog10_sandwich {a : Nat} (h1 : 0 < a) :
    -15 ≤ fixedIntLog10 a ∧
    2 ^ 48 * 10 ^ (fixedIntLog10 a + 15).toNat ≤ a * 10 ^ 15 ∧
    a * 10 ^ 15 < 2 ^ 48 * 10 ^ (fixedIntLog10 a + 16).toNat := by
  have hle : 2 ^ 48 ≤ a * 10 ^ 15 := by
    calc (2 : Nat) ^ 48 ≤ 1 * 10 ^ 15 := by norm_num
    _ ≤ a * 10 ^ 15 := Nat.mul_le_mul_right _ h1
  have hm : 0 < a * 10 ^ 15 / 2 ^ 48 := Nat.div_pos hle (by norm_num)
  obtain ⟨l1, l2⟩ := natLog10_bounds hm
  have ht15 : (fixedIntLog10 a + 15).toNat = natLog10 (a * 10 ^ 15 / 2 ^ 48) := by
    simp only [fixedIntLog10]; omega
  have ht16 : (fixedIntLog10 a + 16).toNat = natLog10 (a * 10 ^ 15 / 2 ^ 48) + 1 := by
    simp only [fixedIntLog10]; omega
  refine ⟨by simp only [fixedIntLog10]; omega, ?_, ?_⟩
  · rw [ht15]
    calc 2 ^ 48 * 10 ^ natLog10 (a * 10 ^ 15 / 2 ^ 48)
        ≤ 2 ^ 48 * (a * 10 ^ 15 / 2 ^ 48) := Nat.mul_le_mul_left _ l1
    _ ≤ a * 10 ^ 15 := Nat.mul_div_le _ _
  · rw [ht16]
    have h0 := Nat.div_add_mod (a * 10 ^ 15) (2 ^ 48)
    have h2 : a * 10 ^ 15 % 2 ^ 48 < 2 ^ 48 := Nat.mod_lt _ (by norm_num)
    calc a * 10 ^ 15 < 2 ^ 48 * (a * 10 ^ 15 / 2 ^ 48 + 1) := by
          rw [Nat.mul_add, Nat.mul_one]; omega
    _ ≤ 2 ^ 48 * 10 ^ (natLog10 (a * 10 ^ 15 / 2 ^ 48) + 1) :=
        Nat.mul_le_mul_left _ (by omega)

/-!
Properties of the shared digit-group emission loop.
-/

lemma and_FFFF (n : Nat) : n &&& 0xFFFF = n % 65536 := by
  have h : (0xFFFF : Nat) = 2 ^ 16 - 1 := by norm_num
  rw [h, Nat.and_pow_two_sub_one_eq_mod]

lemma groupLoop_length (ip w : Nat) : (groupLoop ip w).length = w + 1 := by
  induction w generalizing ip with
  | zero => rfl
  | succ n ih => simp only [groupLoop, List.length_cons, ih]

lemma mod_pow_div_mod (ip j e : Nat) :
    ip % 10000 ^ (j + 1 + e) / 10000 ^ j % 10000 = ip / 10000 ^ j % 10000 := by
  have hpow : (10000 : Nat) ^ j * 10000 ^ (e + 1) = 10000 ^ (j + 1 + e) := by
    rw [← pow_add]; congr 1; omega
  have h1 : ip = ip % 10000 ^ (j + 1 + e) +
      10000 ^ j * (10000 ^ (e + 1) * (ip / 10000 ^ (j + 1 + e))) := by
    conv_lhs => rw [← Nat.div_add_mod ip (10000 ^ (j + 1 + e))]
    rw [← mul_assoc, hpow]
    ring
  conv_rhs => rw [h1]
  rw [Nat.add_mul_div_left _ _ (by positivity), pow_succ', mul_assoc,
    Nat.add_mul_mod_self_left]

lemma groupLoop_eq_digits (ip w : Nat) (h : ip < 10000 ^ (w + 1)) :
    groupLoop ip w = (List.range (w + 1)).map (fun i => ip / 10000 ^ (w - i) % 10000) := by
  induction w generalizing ip with
  | zero =>
    have h1 : ip < 10000 := by simpa using h
    show [ip &&& 0xFFFF] = [ip / 10000 ^ (0 - 0) % 10000]
    rw [and_FFFF, Nat.mod_eq_of_lt (show ip < 65536 by omega), Nat.sub_zero, pow_zero,
      Nat.div_one, Nat.mod_eq_of_lt h1]
  | succ n ih =>
    have hq : ip / 10000 ^ (n + 1) < 10000 := by
      rw [Nat.div_lt_iff_lt_mul (by positivity)]
      calc ip < 10000 ^ (n + 1 + 1) := h
      _ = 10000 * 10000 ^ (n + 1) := by ring
    simp only [groupLoop]
    rw [and_FFFF, Nat.mod_eq_of_lt (by omega : ip / 10000 ^ (n + 1) < 65536)]
    have hrem : ip - ip / 10000 ^ (n + 1) * 10000 ^ (n + 1) = ip % 10000 ^ (n + 1) := by
      have h0 := Nat.div_add_mod ip (10000 ^ (n + 1))
      refine Nat.sub_eq_of_eq_add ?_
      conv_lhs => rw [← h0]
      ring
    rw [hrem, List.range_succ_eq_map, List.map_cons, List.map_map,
      ih _ (Nat.mod_lt _ (by positivity))]
    congr 1
    · rw [Nat.sub_zero, Nat.mod_eq_of_lt hq]
    · apply List.map_congr_left
      intro i hi
      have hi2 : i < n + 1 := List.mem_range.mp hi
      simp only [Function.comp, Nat.succ_eq_add_one]
      have h3 := mod_pow_div_mod ip (n - i) i
      have he : n - i + 1 + i = n + 1 := by omega
      rw [he] at h3
      rw [show n + 1 - (i + 1) = n - i from by omega]
      exact h3

lemma groupLoop_sum (ip w : Nat) (h : ip < 10000 ^ (w + 1)) :
    groupValue (groupLoop ip w) = ip := by
  induction w generalizing ip with
  | zero =>
    have h1 : ip < 10000 := by simpa using h
    simp only [groupLoop, and_FFFF, groupValue, List.length_nil, pow_zero, mul_one,
      add_zero]
    exact Nat.mod_eq_of_lt (by omega)
  | succ n ih =>
    have hq : ip / 10000 ^ (n + 1) < 10000 := by
      rw [Nat.div_lt_iff_lt_mul (by positivity)]
      calc ip < 10000 ^ (n + 1 + 1) := h
      _ = 10000 * 10000 ^ (n + 1) := by ring
    simp only [groupLoop]
    rw [and_FFFF, Nat.mod_eq_of_lt (by omega : ip / 10000 ^ (n + 1) < 65536)]
    have hrem : ip - ip / 10000 ^ (n + 1) * 10000 ^ (n + 1) = ip % 10000 ^ (n + 1) := by
      have h0 := Nat.div_add_mod ip (10000 ^ (n + 1))
      refine Nat.sub_eq_of_eq_add ?_
      conv_lhs => rw [← h0]
      ring
    rw [hrem]
    simp only [groupValue, groupLoop_length]
    rw [ih _ (Nat.mod_lt _ (by positivity)),
      Nat.mul_comm (ip / 10000 ^ (n + 1)) (10000 ^ (n + 1))]
    exact Nat.div_add_mod ip (10000 ^ (n + 1))

lemma groupLoop_mem_lt (ip w : Nat) (h : ip < 10000 ^ (w + 1)) :
    ∀ g ∈ groupLoop ip w, g < 10000 := by
  rw [groupLoop_eq_digits ip w h]
  intro g hg
  simp only [List.mem_map] at hg
  obtain ⟨i, _, rfl⟩ := hg
  exact Nat.mod_lt _ (by norm_num)

lemma groupValue_append (xs ys : List Nat) :
    groupValue (xs ++ ys) = groupValue xs * 10000 ^ ys.length + groupValue ys := by
  induction xs with
  | nil => simp [groupValue]
  | cons x xs ih =>
    simp only [List.cons_append, groupValue, List.append_eq, List.length_append, ih]
    ring

/-!
Magnitude bounds: the decomposed magnitude of each encoder is below
10000^(first_group_weight + 1), so the leading quotient of every emission
loop is below 10000 and the 0xFFFF mask never cuts anything.
-/

lemma pow10000_of_lt_pow10 {v d : Nat} (h : v < 10 ^ (d + 1)) :
    v < 10000 ^ (d / 4 + 1) := by
  calc v < 10 ^ (d + 1) := h
  _ ≤ 10 ^ (4 * (d / 4 + 1)) := Nat.pow_le_pow_right (by norm_num) (by omega)
  _ = (10 ^ 4) ^ (d / 4 + 1) := pow_mul 10 4 _
  _ = 10000 ^ (d / 4 + 1) := by norm_num

lemma u64_mag_bound {v : Nat} (hv : v < 2 ^ 64) :
    v < 10000 ^ ((if v ≠ 0 then int_log.u64 v else 0) / 4 + 1) := by
  by_cases h : v = 0
  · subst h; simp
  · rw [if_pos h]
    exact pow10000_of_lt_pow10 (u64_bounds (Nat.pos_of_ne_zero h) hv).2

lemma u128_mag_bound {v : Int} (hv : v.natAbs < 2 ^ 128) :
    v.natAbs < 10000 ^ ((if v ≠ 0 then int_log.u128 v.natAbs else 0) / 4 + 1) := by
  by_cases h : v = 0
  · subst h; simp
  · rw [if_pos h]
    exact pow10000_of_lt_pow10 (u128_bounds (Int.natAbs_pos.mpr h) hv).2

/-!
Structure of the SqlNumericI80F48 encoder on nonzero, non-minimum inputs.
-/

lemma i80f48_to_sql_eq (raw : Int) (h0 : ¬ raw = 0) (hmin : ¬ raw = -(2 ^ 127)) :
    SqlNumericI80F48.to_sql raw = some
      ({ num_groups := (Int.fdiv (fixedIntLog10 raw.natAbs) 4 - (-4) + 1).toNat
         weight := Int.fdiv (fixedIntLog10 raw.natAbs) 4
         sign := if raw < 0 then 0x4000 else 0
         dscale := 16
         groups :=
           (if Int.fdiv (fixedIntLog10 raw.natAbs) 4 < 0 then []
            else groupLoop (raw.natAbs / 2 ^ 48) (Int.fdiv (fixedIntLog10 raw.natAbs) 4).toNat) ++
           (if min (Int.fdiv (fixedIntLog10 raw.natAbs) 4) (-1) < -4 then []
            else groupLoop (raw.natAbs % 2 ^ 48 * 10 ^ 16 / 2 ^ 48)
              (4 + min (Int.fdiv (fixedIntLog10 raw.natAbs) 4) (-1)).toNat) },
       IsNull.no) := by
  simp only [SqlNumericI80F48.to_sql, if_neg h0, if_neg hmin]

/-- The first group weight of the I80F48 encoder is at least -4, and it is
nonnegative exactly when the value has a nonzero integer part. -/
lemma i80f48_fgw_facts {a : Nat} (ha : 0 < a) :
    -4 ≤ Int.fdiv (fixedIntLog10 a) 4 ∧
    (0 ≤ Int.fdiv (fixedIntLog10 a) 4 ↔ 2 ^ 48 ≤ a) := by
  obtain ⟨hd15, hlo, hhi⟩ := fixedIntLog10_sandwich ha
  rw [Int.fdiv_eq_ediv _ (by norm_num)]
  have hd0 : 0 ≤ fixedIntLog10 a ↔ 2 ^ 48 ≤ a := by
    constructor
    · intro h
      have h15 : 15 ≤ (fixedIntLog10 a + 15).toNat := by omega
      have : 2 ^ 48 * 10 ^ 15 ≤ a * 10 ^ 15 :=
        le_trans (Nat.mul_le_mul_left _ (Nat.pow_le_pow_right (by norm_num) h15)) hlo
      exact Nat.le_of_mul_le_mul_right this (by norm_num)
    · intro h
      by_contra hneg
      have h15 : (fixedIntLog10 a + 16).toNat ≤ 15 := by omega
      have h1 : a * 10 ^ 15 < 2 ^ 48 * 10 ^ 15 :=
        lt_of_lt_of_le hhi (Nat.mul_le_mul_left _ (Nat.pow_le_pow_right (by norm_num) h15))
      have h2 : a < 2 ^ 48 := Nat.lt_of_mul_lt_mul_right h1
      omega
  omega

lemma i80f48_int_bound {a : Nat} (ha : 0 < a)
    (hge : 0 ≤ Int.fdiv (fixedIntLog10 a) 4) :
    a / 2 ^ 48 < 10000 ^ ((Int.fdiv (fixedIntLog10 a) 4).toNat + 1) := by
  obtain ⟨hd15, hlo, hhi⟩ := fixedIntLog10_sandwich ha
  rw [Int.fdiv_eq_ediv _ (by norm_num)] at hge ⊢
  have hd0 : 0 ≤ fixedIntLog10 a := by omega
  have ht : (fixedIntLog10 a + 16).toNat = (fixedIntLog10 a).toNat + 16 := by omega
  rw [ht] at hhi
  have hsplit : (10 : Nat) ^ ((fixedIntLog10 a).toNat + 16)
      = 10 ^ ((fixedIntLog10 a).toNat + 1) * 10 ^ 15 := by
    rw [← pow_add]
  have h1 : a * 10 ^ 15 < 2 ^ 48 * 10 ^ ((fixedIntLog10 a).toNat + 1) * 10 ^ 15 := by
    calc a * 10 ^ 15 < 2 ^ 48 * 10 ^ ((fixedIntLog10 a).toNat + 16) := hhi
    _ = 2 ^ 48 * 10 ^ ((fixedIntLog10 a).toNat + 1) * 10 ^ 15 := by rw [hsplit, mul_assoc]
  have h2 : a < 2 ^ 48 * 10 ^ ((fixedIntLog10 a).toNat + 1) := Nat.lt_of_mul_lt_mul_right h1
  have h3 : a / 2 ^ 48 < 10 ^ ((fixedIntLog10 a).toNat + 1) := by
    rw [Nat.div_lt_iff_lt_mul (by norm_num)]
    calc a < 2 ^ 48 * 10 ^ ((fixedIntLog10 a).toNat + 1) := h2
    _ = 10 ^ ((fixedIntLog10 a).toNat + 1) * 2 ^ 48 := Nat.mul_comm _ _
  have h4 := pow10000_of_lt_pow10 h3
  have ht2 : (fixedIntLog10 a / 4).toNat = (fixedIntLog10 a).toNat / 4 := by omega
  rw [ht2]
  exact h4

lemma i80f48_frac_bound {a : Nat} (ha : 0 < a) :
    a % 2 ^ 48 * 10 ^ 16 / 2 ^ 48
      < 10000 ^ ((4 + min (Int.fdiv (fixedIntLog10 a) 4) (-1)).toNat + 1) := by
  obtain ⟨hd15, hlo, hhi⟩ := fixedIntLog10_sandwich ha
  obtain ⟨hf4, hfiff⟩ := i80f48_fgw_facts ha
  by_cases hc : 2 ^ 48 ≤ a
  · have hf0 : 0 ≤ Int.fdiv (fixedIntLog10 a) 4 := hfiff.mpr hc
    have hmin1 : min (Int.fdiv (fixedIntLog10 a) 4) (-1) = -1 := min_eq_right (by omega)
    rw [hmin1]
    have h3 : ((4 : Int) + -1).toNat + 1 = 4 := by decide
    rw [h3]
    have h1 : a % 2 ^ 48 * 10 ^ 16 < 10 ^ 16 * 2 ^ 48 := by
      have : a % 2 ^ 48 < 2 ^ 48 := Nat.mod_lt _ (by norm_num)
      calc a % 2 ^ 48 * 10 ^ 16 < 2 ^ 48 * 10 ^ 16 := (Nat.mul_lt_mul_right (by norm_num)).mpr this
      _ = 10 ^ 16 * 2 ^ 48 := Nat.mul_comm _ _
    have h2 : a % 2 ^ 48 * 10 ^ 16 / 2 ^ 48 < 10 ^ 16 :=
      (Nat.div_lt_iff_lt_mul (by norm_num)).mpr h1
    calc a % 2 ^ 48 * 10 ^ 16 / 2 ^ 48 < 10 ^ 16 := h2
    _ = 10000 ^ 4 := by norm_num
  · have hf0 : ¬ 0 ≤ Int.fdiv (fixedIntLog10 a) 4 := fun h => hc (hfiff.mp h)
    have hfneg : Int.fdiv (fixedIntLog10 a) 4 ≤ -1 := by omega
    have hmin1 : min (Int.fdiv (fixedIntLog10 a) 4) (-1) = Int.fdiv (fixedIntLog10 a) 4 :=
      min_eq_left (by omega)
    rw [hmin1]
    have hamod : a % 2 ^ 48 = a := Nat.mod_eq_of_lt (by omega)
    rw [hamod]
    -- a * 10^16 < 2^48 * 10^((d+16).toNat + 1)
    have h1 : a * 10 ^ 16 < 2 ^ 48 * 10 ^ ((fixedIntLog10 a + 16).toNat + 1) := by
      calc a * 10 ^ 16 = a * 10 ^ 15 * 10 := by ring
      _ < 2 ^ 48 * 10 ^ ((fixedIntLog10 a + 16).toNat) * 10 :=
          (Nat.mul_lt_mul_right (by norm_num)).mpr hhi
      _ = 2 ^ 48 * 10 ^ ((fixedIntLog10 a + 16).toNat + 1) := by ring
    have h2 : a * 10 ^ 16 / 2 ^ 48 < 10 ^ ((fixedIntLog10 a + 16).toNat + 1) := by
      rw [Nat.div_lt_iff_lt_mul (by norm_num)]
      calc a * 10 ^ 16 < 2 ^ 48 * 10 ^ ((fixedIntLog10 a + 16).toNat + 1) := h1
      _ = 10 ^ ((fixedIntLog10 a + 16).toNat + 1) * 2 ^ 48 := Nat.mul_comm _ _
    have hexp : (fixedIntLog10 a + 16).toNat + 1
        ≤ 4 * ((4 + Int.fdiv (fixedIntLog10 a) 4).toNat + 1) := by
      have hdiv : 4 * Int.fdiv (fixedIntLog10 a) 4 ≤ fixedIntLog10 a ∧
          fixedIntLog10 a < 4 * Int.fdiv (fixedIntLog10 a) 4 + 4 := by
        rw [Int.fdiv_eq_ediv _ (by norm_num)]
        omega
      omega
    calc a * 10 ^ 16 / 2 ^ 48 < 10 ^ ((fixedIntLog10 a + 16).toNat + 1) := h2
    _ ≤ 10 ^ (4 * ((4 + Int.fdiv (fixedIntLog10 a) 4).toNat + 1)) :=
        Nat.pow_le_pow_right (by norm_num) hexp
    _ = (10 ^ 4) ^ ((4 + Int.fdiv (fixedIntLog10 a) 4).toNat + 1) := pow_mul 10 4 _
    _ = 10000 ^ ((4 + Int.fdiv (fixedIntLog10 a) 4).toNat + 1) := by norm_num

/-!
Decode lemmas: the value denoted by the emitted record.
-/

lemma decode_u64 {v : Nat} (hv : v < 2 ^ 64) :
    decodeRecord (SqlNumericU64.to_sql v).1 = (v : ℚ) := by
  simp only [SqlNumericU64.to_sql, decodeRecord]
  rw [groupLoop_length, groupLoop_sum _ _ (u64_mag_bound hv)]
  rw [if_neg (by norm_num : ¬ (0 : Nat) = 0x4000)]
  have h : (((if v ≠ 0 then int_log.u64 v else 0) / 4 : Nat) : Int) -
      ((((if v ≠ 0 then int_log.u64 v else 0) / 4 + 1 : Nat) : Int) - 1) = 0 := by
    push_cast; ring
  rw [h, zpow_zero]
  ring

lemma decode_i128 {v : Int} (hv : v.natAbs < 2 ^ 128) :
    decodeRecord (SqlNumericI128.to_sql v).1 = (v : ℚ) := by
  have h : (((if v ≠ 0 then int_log.u128 v.natAbs else 0) / 4 : Nat) : Int) -
      ((((if v ≠ 0 then int_log.u128 v.natAbs else 0) / 4 + 1 : Nat) : Int) - 1) = 0 := by
    push_cast; ring
  by_cases hneg : v < 0
  · simp only [SqlNumericI128.to_sql, decodeRecord, if_pos hneg]
    rw [groupLoop_length, groupLoop_sum _ _ (u128_mag_bound hv), if_pos trivial, h, zpow_zero,
      Int.cast_natAbs]
    push_cast
    rw [abs_of_neg (by exact_mod_cast hneg)]
    ring
  · simp only [SqlNumericI128.to_sql, decodeRecord, if_neg hneg]
    rw [groupLoop_length, groupLoop_sum _ _ (u128_mag_bound hv),
      if_neg (by norm_num : ¬ (0 : Nat) = 0x4000), h, zpow_zero, Int.cast_natAbs]
    push_cast
    rw [abs_of_nonneg (by exact_mod_cast not_lt.mp hneg)]
    ring

/-- The rescaled fractional part fp = floor(frac * 10^16 / 2^48) approximates
the true fractional value frac / 2^48 from below, with error below 10^-16. -/
lemma frac_diff_bounds (fr : Nat) :
    0 ≤ (fr : ℚ) / 2 ^ 48 - ((fr * 10 ^ 16 / 2 ^ 48 : Nat) : ℚ) / 10 ^ 16 ∧
    (fr : ℚ) / 2 ^ 48 - ((fr * 10 ^ 16 / 2 ^ 48 : Nat) : ℚ) / 10 ^ 16 < 1 / 10 ^ 16 := by
  have hle : 2 ^ 48 * (fr * 10 ^ 16 / 2 ^ 48) ≤ fr * 10 ^ 16 := Nat.mul_div_le _ _
  have hlt : fr * 10 ^ 16 < 2 ^ 48 * (fr * 10 ^ 16 / 2 ^ 48) + 2 ^ 48 := by
    have h0 := Nat.div_add_mod (fr * 10 ^ 16) (2 ^ 48)
    have h1 : fr * 10 ^ 16 % 2 ^ 48 < 2 ^ 48 := Nat.mod_lt _ (by norm_num)
    omega
  have hleQ : (2 : ℚ) ^ 48 * ((fr * 10 ^ 16 / 2 ^ 48 : Nat) : ℚ) ≤ (fr : ℚ) * 10 ^ 16 := by
    exact_mod_cast hle
  have hltQ : (fr : ℚ) * 10 ^ 16 <
      2 ^ 48 * ((fr * 10 ^ 16 / 2 ^ 48 : Nat) : ℚ) + 2 ^ 48 := by
    exact_mod_cast hlt
  constructor
  · rw [sub_nonneg, div_le_div_iff (by positivity) (by positivity)]
    linarith
  · rw [div_sub_div _ _ (by positivity) (by positivity),
      div_lt_div_iff (by positivity) (by positivity)]
    linarith

/-- Common final step of the I80F48 round trip: the decoded value, which is
sign * (integer part + fp / 10^16), is within 10^-16 of raw / 2^48. -/
lemma decode_final {raw : Int} (X : ℚ)
    (hX : X = (if raw < 0 then (-1 : ℚ) else 1) *
      (((raw.natAbs / 2 ^ 48 : Nat) : ℚ) +
        ((raw.natAbs % 2 ^ 48 * 10 ^ 16 / 2 ^ 48 : Nat) : ℚ) / 10 ^ 16)) :
    |X - (raw : ℚ) / 2 ^ 48| < 1 / 10 ^ 16 := by
  obtain ⟨hDnn, hDlt⟩ := frac_diff_bounds (raw.natAbs % 2 ^ 48)
  have hsplit : ((raw.natAbs : Nat) : ℚ) =
      2 ^ 48 * ((raw.natAbs / 2 ^ 48 : Nat) : ℚ) + ((raw.natAbs % 2 ^ 48 : Nat) : ℚ) := by
    exact_mod_cast congrArg (fun n : Nat => (n : ℚ)) (Nat.div_add_mod raw.natAbs (2 ^ 48)).symm
  by_cases hneg : raw < 0
  · have hra : ((raw.natAbs : Nat) : ℚ) = -(raw : ℚ) := by
      rw [Int.cast_natAbs]
      push_cast
      exact abs_of_neg (by exact_mod_cast hneg)
    have heq : X - (raw : ℚ) / 2 ^ 48 =
        ((raw.natAbs % 2 ^ 48 : Nat) : ℚ) / 2 ^ 48 -
          ((raw.natAbs % 2 ^ 48 * 10 ^ 16 / 2 ^ 48 : Nat) : ℚ) / 10 ^ 16 := by
      rw [hX, if_pos hneg]
      have hr2 : (raw : ℚ) = -(((raw.natAbs : Nat) : ℚ)) := by rw [hra]; ring
      rw [hr2, hsplit]
      field_simp
      ring
    rw [heq, abs_of_nonneg hDnn]
    exact hDlt
  · have hra : ((raw.natAbs : Nat) : ℚ) = (raw : ℚ) := by
      rw [Int.cast_natAbs]
      push_cast
      exact abs_of_nonneg (by exact_mod_cast not_lt.mp hneg)
    have heq : X - (raw : ℚ) / 2 ^ 48 =
        -(((raw.natAbs % 2 ^ 48 : Nat) : ℚ) / 2 ^ 48 -
          ((raw.natAbs % 2 ^ 48 * 10 ^ 16 / 2 ^ 48 : Nat) : ℚ) / 10 ^ 16) := by
      rw [hX, if_neg hneg, ← hra, hsplit]
      field_simp
      ring
    rw [heq, abs_neg, abs_of_nonneg hDnn]
    exact hDlt

lemma sign_if_eq (c : Prop) [Decidable c] :
    (if (if c then (0x4000 : Nat) else 0) = 0x4000 then (-1 : ℚ) else 1)
      = if c then -1 else 1 := by
  by_cases h : c
  · simp [h]
  · simp [h]

lemma decode_i80f48 {raw : Int} {p : WireRecord × IsNull}
    (hr : SqlNumericI80F48.to_sql raw = some p) :
    |decodeRecord p.1 - (raw : ℚ) / 2 ^ 48| < 1 / 10 ^ 16 := by
  by_cases h0 : raw = 0
  · subst h0
    simp [SqlNumericI80F48.to_sql] at hr
    obtain rfl := hr
    simp [decodeRecord, groupValue]
  · by_cases hmin : raw = -(2 ^ 127)
    · rw [hmin] at hr
      simp only [SqlNumericI80F48.to_sql, if_neg (by norm_num : ¬ -(2 ^ 127 : Int) = 0),
        if_pos rfl] at hr
      exact Option.noConfusion hr
    · rw [i80f48_to_sql_eq raw h0 hmin] at hr
      obtain rfl := Option.some.inj hr
      have ha : 0 < raw.natAbs := Int.natAbs_pos.mpr h0
      obtain ⟨hf4, hfiff⟩ := i80f48_fgw_facts ha
      have hBmin : ¬ min (Int.fdiv (fixedIntLog10 raw.natAbs) 4) (-1) < -4 :=
        not_lt.mpr (le_min hf4 (by norm_num))
      have hfb0 := i80f48_frac_bound ha
      apply decode_final
      by_cases hc : 0 ≤ Int.fdiv (fixedIntLog10 raw.natAbs) 4
      · have hmin1 : min (Int.fdiv (fixedIntLog10 raw.natAbs) 4) (-1) = -1 :=
          min_eq_right (by omega)
        have htn : ((4 : Int) + min (Int.fdiv (fixedIntLog10 raw.natAbs) 4) (-1)).toNat
            = 3 := by rw [hmin1]; decide
        have hfb : raw.natAbs % 2 ^ 48 * 10 ^ 16 / 2 ^ 48 < 10000 ^ (3 + 1) := by
          rw [← htn]; exact hfb0
        simp only [decodeRecord, if_neg (not_lt.mpr hc), if_neg hBmin, htn, sign_if_eq]
        rw [groupValue_append, List.length_append, groupLoop_length, groupLoop_length,
          groupLoop_sum _ _ (i80f48_int_bound ha hc), groupLoop_sum _ _ hfb]
        have hexp : Int.fdiv (fixedIntLog10 raw.natAbs) 4 -
            ((((Int.fdiv (fixedIntLog10 raw.natAbs) 4).toNat + 1 + (3 + 1) : Nat) : Int) - 1)
              = -4 := by
          have ht := Int.toNat_of_nonneg hc
          push_cast
          omega
        rw [hexp, show ((10000 : ℚ)) ^ (-4 : Int) = 1 / 10 ^ 16 from by
          rw [zpow_neg]; norm_num]
        rw [mul_assoc, show ((raw.natAbs / 2 ^ 48 * 10000 ^ (3 + 1) +
            raw.natAbs % 2 ^ 48 * 10 ^ 16 / 2 ^ 48 : Nat) : ℚ) * (1 / 10 ^ 16)
            = ((raw.natAbs / 2 ^ 48 : Nat) : ℚ) +
              ((raw.natAbs % 2 ^ 48 * 10 ^ 16 / 2 ^ 48 : Nat) : ℚ) / 10 ^ 16 from by
          push_cast
          rw [mul_one_div, add_div, mul_div_assoc]
          norm_num]
      · have hfneg : Int.fdiv (fixedIntLog10 raw.natAbs) 4 < 0 := not_le.mp hc
        have hmin1 : min (Int.fdiv (fixedIntLog10 raw.natAbs) 4) (-1)
            = Int.fdiv (fixedIntLog10 raw.natAbs) 4 := min_eq_left (by omega)
        have hq0 : raw.natAbs / 2 ^ 48 = 0 := Nat.div_eq_of_lt (by
          have h48 : ¬ 2 ^ 48 ≤ raw.natAbs := fun h => hc (hfiff.mpr h)
          omega)
        have hfb : raw.natAbs % 2 ^ 48 * 10 ^ 16 / 2 ^ 48 <
            10000 ^ (((4 : Int) + Int.fdiv (fixedIntLog10 raw.natAbs) 4).toNat + 1) := by
          rw [← hmin1]; exact hfb0
        simp only [decodeRecord, if_pos hfneg, hmin1,
          if_neg (show ¬ Int.fdiv (fixedIntLog10 raw.natAbs) 4 < -4 from by omega),
          List.nil_append, sign_if_eq]
        rw [groupLoop_length, groupLoop_sum _ _ hfb]
        have hexp : Int.fdiv (fixedIntLog10 raw.natAbs) 4 -
            (((((4 : Int) + Int.fdiv (fixedIntLog10 raw.natAbs) 4).toNat + 1 : Nat) : Int) - 1)
              = -4 := by
          have ht := Int.toNat_of_nonneg (show (0 : Int) ≤ 4 + Int.fdiv (fixedIntLog10 raw.natAbs) 4 by omega)
          push_cast
          omega
        rw [hexp, show ((10000 : ℚ)) ^ (-4 : Int) = 1 / 10 ^ 16 from by
          rw [zpow_neg]; norm_num]
        rw [hq0, mul_assoc, show ((raw.natAbs % 2 ^ 48 * 10 ^ 16 / 2 ^ 48 : Nat) : ℚ) *
            (1 / 10 ^ 16) = ((0 : Nat) : ℚ) +
              ((raw.natAbs % 2 ^ 48 * 10 ^ 16 / 2 ^ 48 : Nat) : ℚ) / 10 ^ 16 from by
          push_cast
          ring]

lemma i80f48_groups_lt {raw : Int} {p : WireRecord × IsNull}
    (hr : SqlNumericI80F48.to_sql raw = some p) :
    ∀ g ∈ p.1.groups, g < 10000 := by
  by_cases h0 : raw = 0
  · subst h0
    simp [SqlNumericI80F48.to_sql] at hr
    obtain rfl := hr
    simp
  · by_cases hmin : raw = -(2 ^ 127)
    · rw [hmin] at hr
      simp only [SqlNumericI80F48.to_sql, if_neg (by norm_num : ¬ -(2 ^ 127 : Int) = 0),
        if_pos rfl] at hr
      exact Option.noConfusion hr
    · rw [i80f48_to_sql_eq raw h0 hmin] at hr
      obtain rfl := Option.some.inj hr
      have ha : 0 < raw.natAbs := Int.natAbs_pos.mpr h0
      obtain ⟨hf4, hfiff⟩ := i80f48_fgw_facts ha
      intro g hg
      simp only [List.mem_append] at hg
      rcases hg with hg | hg
      · by_cases hc : Int.fdiv (fixedIntLog10 raw.natAbs) 4 < 0
        · rw [if_pos hc] at hg
          simp at hg
        · rw [if_neg hc] at hg
          exact groupLoop_mem_lt _ _ (i80f48_int_bound ha (not_lt.mp hc)) g hg
      · rw [if_neg (not_lt.mpr (le_min hf4 (by norm_num)))] at hg
        exact groupLoop_mem_lt _ _ (i80f48_frac_bound ha) g hg

lemma i80f48_groups_length {raw : Int} (h0 : ¬ raw = 0) :
    ((if Int.fdiv (fixedIntLog10 raw.natAbs) 4 < 0 then []
      else groupLoop (raw.natAbs / 2 ^ 48) (Int.fdiv (fixedIntLog10 raw.natAbs) 4).toNat) ++
     (if min (Int.fdiv (fixedIntLog10 raw.natAbs) 4) (-1) < -4 then []
      else groupLoop (raw.natAbs % 2 ^ 48 * 10 ^ 16 / 2 ^ 48)
        (4 + min (Int.fdiv (fixedIntLog10 raw.natAbs) 4) (-1)).toNat)).length
    = (Int.fdiv (fixedIntLog10 raw.natAbs) 4 - (-4) + 1).toNat := by
  have ha : 0 < raw.natAbs := Int.natAbs_pos.mpr h0
  obtain ⟨hf4, hfiff⟩ := i80f48_fgw_facts ha
  rw [List.length_append, if_neg (not_lt.mpr (le_min hf4 (by norm_num))), groupLoop_length]
  by_cases hc : Int.fdiv (fixedIntLog10 raw.natAbs) 4 < 0
  · rw [if_pos hc, min_eq_left (by omega : Int.fdiv (fixedIntLog10 raw.natAbs) 4 ≤ -1)]
    simp only [List.length_nil]
    omega
  · rw [if_neg hc, min_eq_right (by omega : (-1 : Int) ≤ Int.fdiv (fixedIntLog10 raw.natAbs) 4),
      groupLoop_length]
    omega

lemma window_unique {x c i j : Nat} (h1 : c * 10 ^ i ≤ x) (h2 : x < c * 10 ^ (i + 1))
    (h3 : c * 10 ^ j ≤ x) (h4 : x < c * 10 ^ (j + 1)) : i = j := by
  by_contra hne
  rcases Nat.lt_or_ge i j with h | h
  · have hmono : c * 10 ^ (i + 1) ≤ c * 10 ^ j :=
      Nat.mul_le_mul_left _ (Nat.pow_le_pow_right (by norm_num) (by omega))
    omega
  · have hj : j < i := by omega
    have hmono : c * 10 ^ (j + 1) ≤ c * 10 ^ i :=
      Nat.mul_le_mul_left _ (Nat.pow_le_pow_right (by norm_num) (by omega))
    omega

/-- On values with a nonzero integer part, the fixed-crate logarithm model
agrees with the exact integer log10 of the integer part. -/
lemma fixedIntLog10_int_part {a : Nat} (h : 2 ^ 48 ≤ a) :
    fixedIntLog10 a = Nat.log 10 (a / 2 ^ 48) := by
  have ha : 0 < a := by omega
  obtain ⟨hd15, hlo, hhi⟩ := fixedIntLog10_sandwich ha
  have hd0 : 0 ≤ fixedIntLog10 a := by
    by_contra hneg
    have h15 : (fixedIntLog10 a + 16).toNat ≤ 15 := by omega
    have hx : a * 10 ^ 15 < 2 ^ 48 * 10 ^ 15 :=
      lt_of_lt_of_le hhi (Nat.mul_le_mul_left _ (Nat.pow_le_pow_right (by norm_num) h15))
    have : a < 2 ^ 48 := Nat.lt_of_mul_lt_mul_right hx
    omega
  have ht15 : (fixedIntLog10 a + 15).toNat = (fixedIntLog10 a).toNat + 15 := by omega
  have ht16 : (fixedIntLog10 a + 16).toNat = (fixedIntLog10 a).toNat + 16 := by omega
  rw [ht15] at hlo
  rw [ht16] at hhi
  -- window for the model exponent, after cancelling 10^15
  have w1 : 2 ^ 48 * 10 ^ (fixedIntLog10 a).toNat ≤ a := by
    have : 2 ^ 48 * 10 ^ (fixedIntLog10 a).toNat * 10 ^ 15 ≤ a * 10 ^ 15 := by
      calc 2 ^ 48 * 10 ^ (fixedIntLog10 a).toNat * 10 ^ 15
          = 2 ^ 48 * 10 ^ ((fixedIntLog10 a).toNat + 15) := by
            rw [mul_assoc, ← pow_add]
      _ ≤ a * 10 ^ 15 := hlo
    exact Nat.le_of_mul_le_mul_right this (by norm_num)
  have w2 : a < 2 ^ 48 * 10 ^ ((fixedIntLog10 a).toNat + 1) := by
    have hx : a * 10 ^ 15 < 2 ^ 48 * 10 ^ ((fixedIntLog10 a).toNat + 1) * 10 ^ 15 := by
      calc a * 10 ^ 15 < 2 ^ 48 * 10 ^ ((fixedIntLog10 a).toNat + 16) := hhi
      _ = 2 ^ 48 * 10 ^ ((fixedIntLog10 a).toNat + 1) * 10 ^ 15 := by
          rw [mul_assoc, ← pow_add]
    exact Nat.lt_of_mul_lt_mul_right hx
  -- window for the integer-part log
  have hq1 : 0 < a / 2 ^ 48 := Nat.div_pos h (by norm_num)
  have w3 : 2 ^ 48 * 10 ^ Nat.log 10 (a / 2 ^ 48) ≤ a := by
    calc 2 ^ 48 * 10 ^ Nat.log 10 (a / 2 ^ 48)
        ≤ 2 ^ 48 * (a / 2 ^ 48) :=
          Nat.mul_le_mul_left _ (Nat.pow_log_le_self 10 (by omega))
    _ ≤ a := Nat.mul_div_le _ _
  have w4 : a < 2 ^ 48 * 10 ^ (Nat.log 10 (a / 2 ^ 48) + 1) := by
    have hq2 : a / 2 ^ 48 < 10 ^ (Nat.log 10 (a / 2 ^ 48) + 1) :=
      Nat.lt_pow_succ_log_self (by norm_num) _
    have hq3 : a < 2 ^ 48 * (a / 2 ^ 48 + 1) := by
      have hdm := Nat.div_add_mod a (2 ^ 48)
      have hml : a % 2 ^ 48 < 2 ^ 48 := Nat.mod_lt _ (by norm_num)
      rw [Nat.mul_add, Nat.mul_one]
      omega
    calc a < 2 ^ 48 * (a / 2 ^ 48 + 1) := hq3
    _ ≤ 2 ^ 48 * 10 ^ (Nat.log 10 (a / 2 ^ 48) + 1) := Nat.mul_le_mul_left _ (by omega)
  have := window_unique w1 w2 w3 w4
  omega

/-!
Claim theorems.
-/

/-- C1: for every input value of each of the three encoders (fixed-point
Q80.48 signed, signed 128-bit integer, unsigned 64-bit integer),
reconstructing a decimal value from the produced wire record, as
sign times the sum of group i times 10000 to the (weight - i), reproduces
the original input value within the claimed dscale: exactly for the two
integer encoders, and to within 10^-16 for the fixed-point encoder
(whose value is raw / 2^48). -/
theorem c1_roundtrip (u : Nat) (v raw : Int) (p : WireRecord × IsNull)
    (hu : u < 2 ^ 64) (hv : -(2 ^ 127) ≤ v ∧ v < 2 ^ 127)
    (hp : SqlNumericI80F48.to_sql raw = some p) :
    decodeRecord (SqlNumericU64.to_sql u).1 = (u : ℚ) ∧
    decodeRecord (SqlNumericI128.to_sql v).1 = (v : ℚ) ∧
    |decodeRecord p.1 - (raw : ℚ) / 2 ^ 48| < 1 / 10 ^ 16 :=
  ⟨decode_u64 hu, decode_i128 (by omega), decode_i80f48 hp⟩

set_option maxRecDepth 10000 in
theorem c1_roundtrip_witness :
    (12345 : Nat) < 2 ^ 64 ∧ (-(2 ^ 127) ≤ (-7 : Int) ∧ (-7 : Int) < 2 ^ 127) ∧
    SqlNumericI80F48.to_sql (2 ^ 47) = some
      (WireRecord.mk 4 (-1) 0 16 [5000, 0, 0, 0], IsNull.no) ∧
    (decodeRecord (SqlNumericU64.to_sql 12345).1 = ((12345 : Nat) : ℚ) ∧
     decodeRecord (SqlNumericI128.to_sql (-7)).1 = ((-7 : Int) : ℚ) ∧
     |decodeRecord (WireRecord.mk 4 (-1) 0 16 [5000, 0, 0, 0], IsNull.no).1 -
       ((2 ^ 47 : Int) : ℚ) / 2 ^ 48| < 1 / 10 ^ 16) :=
  ⟨by norm_num, by norm_num, by decide,
    c1_roundtrip 12345 (-7) (2 ^ 47)
      (WireRecord.mk 4 (-1) 0 16 [5000, 0, 0, 0], IsNull.no)
      (by norm_num) (by norm_num) (by decide)⟩

/-- C2: for every unsigned n > 0 in the respective range, int_log.u64 n and
int_log.u128 n return exactly floor(log10 n), i.e. the number of decimal
digits of n minus one; being universally quantified over the full bit
widths this covers every boundary value 10^k - 1, 10^k, 10^k + 1. -/
theorem c2_int_log_exact (n m : Nat) (hn : 0 < n) (hn64 : n < 2 ^ 64)
    (hm : 0 < m) (hm128 : m < 2 ^ 128) :
    int_log.u64 n = Nat.log 10 n ∧ int_log.u128 m = Nat.log 10 m ∧
    int_log.u64 n + 1 = (Nat.digits 10 n).length ∧
    int_log.u128 m + 1 = (Nat.digits 10 m).length := by
  obtain ⟨l1, l2⟩ := u64_bounds hn hn64
  obtain ⟨l3, l4⟩ := u128_bounds hm hm128
  have h1 : int_log.u64 n = Nat.log 10 n := (Nat.log_eq_of_pow_le_of_lt_pow l1 l2).symm
  have h2 : int_log.u128 m = Nat.log 10 m := (Nat.log_eq_of_pow_le_of_lt_pow l3 l4).symm
  refine ⟨h1, h2, ?_, ?_⟩
  · rw [Nat.digits_len 10 n (by norm_num) (by omega), h1]
  · rw [Nat.digits_len 10 m (by norm_num) (by omega), h2]

theorem c2_int_log_exact_witness :
    0 < (10 ^ 16 : Nat) ∧ (10 ^ 16 : Nat) < 2 ^ 64 ∧
    0 < (10 ^ 32 : Nat) ∧ (10 ^ 32 : Nat) < 2 ^ 128 ∧
    (int_log.u64 (10 ^ 16) = Nat.log 10 (10 ^ 16) ∧
     int_log.u128 (10 ^ 32) = Nat.log 10 (10 ^ 32) ∧
     int_log.u64 (10 ^ 16) + 1 = (Nat.digits 10 (10 ^ 16)).length ∧
     int_log.u128 (10 ^ 32) + 1 = (Nat.digits 10 (10 ^ 32)).length) :=
  ⟨by norm_num, by norm_num, by norm_num, by norm_num,
    c2_int_log_exact (10 ^ 16) (10 ^ 32) (by norm_num) (by norm_num) (by norm_num)
      (by norm_num)⟩

set_option maxRecDepth 10000 in
/-- C3: the claim says encoding completes for every value of the three
accepted source types, including both minima, with no panic or error path.
The code violates this at the fixed-point minimum I80F48::MIN
(raw = -2^127): self.0.abs() overflows there, so under debug assertions
abs panics, and in release abs wraps to the negative minimum itself, after
which int_log10 (which requires a positive argument) panics.  The model
therefore returns none exactly at that input, evaluated here. -/
theorem c3_i80f48_min_panics : SqlNumericI80F48.to_sql (-(2 ^ 127)) = none := by
  decide

/-- C4: for every input value of each of the three encoders, every digit
group written to the output lies in [0, 9999]; groups are modelled as the
16-bit words written, so nonnegativity is inherent and the substantive
bound is the upper one, over the full representable range of each source
type. -/
theorem c4_groups_in_range (u : Nat) (v raw : Int) (p : WireRecord × IsNull)
    (hu : u < 2 ^ 64) (hv : -(2 ^ 127) ≤ v ∧ v < 2 ^ 127)
    (hp : SqlNumericI80F48.to_sql raw = some p) :
    (∀ g ∈ (SqlNumericU64.to_sql u).1.groups, g < 10000) ∧
    (∀ g ∈ (SqlNumericI128.to_sql v).1.groups, g < 10000) ∧
    (∀ g ∈ p.1.groups, g < 10000) := by
  refine ⟨?_, ?_, i80f48_groups_lt hp⟩
  · show ∀ g ∈ groupLoop u ((if u ≠ 0 then int_log.u64 u else 0) / 4), g < 10000
    exact groupLoop_mem_lt _ _ (u64_mag_bound hu)
  · show ∀ g ∈ groupLoop v.natAbs ((if v ≠ 0 then int_log.u128 v.natAbs else 0) / 4),
      g < 10000
    exact groupLoop_mem_lt _ _ (u128_mag_bound (by omega))

set_option maxRecDepth 10000 in
theorem c4_groups_in_range_witness :
    (99999 : Nat) < 2 ^ 64 ∧ (-(2 ^ 127) ≤ (-123456789 : Int) ∧ (-123456789 : Int) < 2 ^ 127) ∧
    SqlNumericI80F48.to_sql 3 = some (WireRecord.mk 1 (-4) 0 16 [106], IsNull.no) ∧
    ((∀ g ∈ (SqlNumericU64.to_sql 99999).1.groups, g < 10000) ∧
     (∀ g ∈ (SqlNumericI128.to_sql (-123456789)).1.groups, g < 10000) ∧
     (∀ g ∈ (WireRecord.mk 1 (-4) 0 16 [106], IsNull.no).1.groups, g < 10000)) :=
  ⟨by norm_num, by norm_num, by decide,
    c4_groups_in_range 99999 (-123456789) 3 (WireRecord.mk 1 (-4) 0 16 [106], IsNull.no)
      (by norm_num) (by norm_num) (by decide)⟩

/-- C5 counterexample: the claim says the fixed-point zero record carries
dscale = 16, but the encoder writes dscale = 0 at zero (mango.rs line 27),
so zero does not produce the record the claim names. -/
theorem c5_fixed_zero_dscale_counterexample :
    SqlNumericI80F48.to_sql 0 ≠ some (WireRecord.mk 1 0 0 16 [0], IsNull.no) := by
  decide

/-- C5 amended: every zero input produces the canonical zero record
{num_groups = 1, weight = 0, sign = 0, groups = [0]} with dscale = 0 for
all three encoders; the fixed-point encoder also writes dscale = 0 at
zero, not 16. -/
theorem c5_zero_records_amended :
    SqlNumericI80F48.to_sql 0 = some (WireRecord.mk 1 0 0 0 [0], IsNull.no) ∧
    SqlNumericI128.to_sql 0 = (WireRecord.mk 1 0 0 0 [0], IsNull.no) ∧
    SqlNumericU64.to_sql 0 = (WireRecord.mk 1 0 0 0 [0], IsNull.no) := by
  decide

set_option maxRecDepth 10000 in
/-- C6 counterexample: at the nonzero fixed-point input raw = 1 (value
2^-48), the encoder emits a single digit group at weight -4, not four
fractional groups at weights -1 down to -4. -/
theorem c6_four_frac_groups_counterexample :
    SqlNumericI80F48.to_sql 1 = some (WireRecord.mk 1 (-4) 0 16 [35], IsNull.no) ∧
    (WireRecord.mk 1 (-4) 0 16 [35] : WireRecord).groups.length ≠ 4 := by
  decide

/-- C6 amended: for every nonzero fixed-point input that encodes, dscale is
16 and the fractional digit groups run from weight min(first_group_weight,
-1) down to -4, i.e. there are min(first_group_weight, -1) + 5 of them;
that is exactly four when int_log10 of the magnitude is at least -4
(in particular whenever the magnitude is at least 10^-4), but fewer for
smaller magnitudes. -/
theorem c6_frac_groups_amended (raw : Int) (p : WireRecord × IsNull)
    (h0 : raw ≠ 0) (hp : SqlNumericI80F48.to_sql raw = some p) :
    p.1.dscale = 16 ∧
    ∃ gInt gFrac : List Nat, p.1.groups = gInt ++ gFrac ∧
      (gFrac.length : Int) = min (Int.fdiv (fixedIntLog10 raw.natAbs) 4) (-1) + 5 ∧
      (-4 ≤ fixedIntLog10 raw.natAbs → gFrac.length = 4) := by
  by_cases hmin : raw = -(2 ^ 127)
  · rw [hmin] at hp
    simp only [SqlNumericI80F48.to_sql, if_neg (by norm_num : ¬ -(2 ^ 127 : Int) = 0),
      if_pos rfl] at hp
    exact Option.noConfusion hp
  · rw [i80f48_to_sql_eq raw h0 hmin] at hp
    obtain rfl := Option.some.inj hp
    have ha : 0 < raw.natAbs := Int.natAbs_pos.mpr h0
    obtain ⟨hf4, hfiff⟩ := i80f48_fgw_facts ha
    have hBmin : ¬ min (Int.fdiv (fixedIntLog10 raw.natAbs) 4) (-1) < -4 :=
      not_lt.mpr (le_min hf4 (by norm_num))
    refine ⟨rfl,
      (if Int.fdiv (fixedIntLog10 raw.natAbs) 4 < 0 then []
        else groupLoop (raw.natAbs / 2 ^ 48) (Int.fdiv (fixedIntLog10 raw.natAbs) 4).toNat),
      (if min (Int.fdiv (fixedIntLog10 raw.natAbs) 4) (-1) < -4 then []
        else groupLoop (raw.natAbs % 2 ^ 48 * 10 ^ 16 / 2 ^ 48)
          (4 + min (Int.fdiv (fixedIntLog10 raw.natAbs) 4) (-1)).toNat), rfl, ?_, ?_⟩
    · rw [if_neg hBmin, groupLoop_length]
      have hge : -4 ≤ min (Int.fdiv (fixedIntLog10 raw.natAbs) 4) (-1) := not_lt.mp hBmin
      push_cast
      omega
    · intro hd4
      rw [if_neg hBmin, groupLoop_length]
      have hfge : -1 ≤ Int.fdiv (fixedIntLog10 raw.natAbs) 4 := by
        rw [Int.fdiv_eq_ediv _ (by norm_num)]
        omega
      rw [min_eq_right hfge]
      decide

set_option maxRecDepth 10000 in
theorem c6_frac_groups_amended_witness :
    (2 ^ 48 : Int) ≠ 0 ∧
    SqlNumericI80F48.to_sql (2 ^ 48) =
      some (WireRecord.mk 5 0 0 16 [1, 0, 0, 0, 0], IsNull.no) ∧
    ((WireRecord.mk 5 0 0 16 [1, 0, 0, 0, 0], IsNull.no).1.dscale = 16 ∧
     ∃ gInt gFrac : List Nat,
       (WireRecord.mk 5 0 0 16 [1, 0, 0, 0, 0], IsNull.no).1.groups = gInt ++ gFrac ∧
       (gFrac.length : Int) =
         min (Int.fdiv (fixedIntLog10 (2 ^ 48 : Int).natAbs) 4) (-1) + 5 ∧
       (-4 ≤ fixedIntLog10 (2 ^ 48 : Int).natAbs → gFrac.length = 4)) :=
  ⟨by norm_num, by decide,
    c6_frac_groups_amended (2 ^ 48) (WireRecord.mk 5 0 0 16 [1, 0, 0, 0, 0], IsNull.no)
      (by norm_num) (by decide)⟩

set_option maxRecDepth 10000 in
/-- C7 counterexample: at raw = 2^47 (value 0.5) the integer part is zero,
yet the encoder sets first_group_weight = -1, not floor(0 / 4) = 0: the
digit count is int_log10 of the whole fixed-point value, which is negative
for values below one. -/
theorem c7_digit_count_counterexample :
    (SqlNumericI80F48.to_sql (2 ^ 47)).map (fun p => p.1.weight) = some (-1) ∧
    (2 ^ 47 : Int).natAbs / 2 ^ 48 = 0 := by
  decide

/-- C7 amended: digit_count is the floor of log10 of the full fixed-point
magnitude (raw.natAbs / 2^48), not of just its integer part: it equals the
exact integer log10 of the integer part whenever that part is positive,
but for values with zero integer part it is negative (between -15 and -1),
so first_group_weight = floor(digit_count / 4) lies in [-4, -1] rather
than being 0; the record weight is floor(digit_count / 4) in all cases. -/
theorem c7_digit_count_amended (raw : Int) (p : WireRecord × IsNull)
    (h0 : raw ≠ 0) (hp : SqlNumericI80F48.to_sql raw = some p) :
    (2 ^ 48 ≤ raw.natAbs →
      fixedIntLog10 raw.natAbs = Nat.log 10 (raw.natAbs / 2 ^ 48)) ∧
    (raw.natAbs < 2 ^ 48 →
      -15 ≤ fixedIntLog10 raw.natAbs ∧ fixedIntLog10 raw.natAbs ≤ -1) ∧
    p.1.weight = Int.fdiv (fixedIntLog10 raw.natAbs) 4 := by
  have ha : 0 < raw.natAbs := Int.natAbs_pos.mpr h0
  refine ⟨fun h => fixedIntLog10_int_part h, fun h => ?_, ?_⟩
  · obtain ⟨hd15, hlo, hhi⟩ := fixedIntLog10_sandwich ha
    obtain ⟨hf4, hfiff⟩ := i80f48_fgw_facts ha
    refine ⟨hd15, ?_⟩
    by_contra hcon
    have hf0 : 0 ≤ Int.fdiv (fixedIntLog10 raw.natAbs) 4 := by
      rw [Int.fdiv_eq_ediv _ (by norm_num)]
      omega
    have := hfiff.mp hf0
    omega
  · by_cases hmin : raw = -(2 ^ 127)
    · rw [hmin] at hp
      simp only [SqlNumericI80F48.to_sql, if_neg (by norm_num : ¬ -(2 ^ 127 : Int) = 0),
        if_pos rfl] at hp
      exact Option.noConfusion hp
    · rw [i80f48_to_sql_eq raw h0 hmin] at hp
      obtain rfl := Option.some.inj hp
      rfl

set_option maxRecDepth 10000 in
theorem c7_digit_count_amended_witness :
    (2 ^ 49 : Int) ≠ 0 ∧
    SqlNumericI80F48.to_sql (2 ^ 49) =
      some (WireRecord.mk 5 0 0 16 [2, 0, 0, 0, 0], IsNull.no) ∧
    ((2 ^ 48 ≤ (2 ^ 49 : Int).natAbs →
       fixedIntLog10 (2 ^ 49 : Int).natAbs = Nat.log 10 ((2 ^ 49 : Int).natAbs / 2 ^ 48)) ∧
     ((2 ^ 49 : Int).natAbs < 2 ^ 48 →
       -15 ≤ fixedIntLog10 (2 ^ 49 : Int).natAbs ∧
         fixedIntLog10 (2 ^ 49 : Int).natAbs ≤ -1) ∧
     (WireRecord.mk 5 0 0 16 [2, 0, 0, 0, 0], IsNull.no).1.weight =
       Int.fdiv (fixedIntLog10 (2 ^ 49 : Int).natAbs) 4) :=
  ⟨by norm_num, by decide,
    c7_digit_count_amended (2 ^ 49) (WireRecord.mk 5 0 0 16 [2, 0, 0, 0, 0], IsNull.no)
      (by norm_num) (by decide)⟩

/-- C8: for every nonzero input of each of the three encoders, the
num_groups header field equals first_group_weight - last_group_weight + 1
(last_group_weight being -4 for the fixed-point encoder and 0 for the
integer encoders), and this equals the number of digit groups actually
written after the header. -/
theorem c8_num_groups (u : Nat) (v raw : Int) (p : WireRecord × IsNull)
    (hu : u ≠ 0) (hv : v ≠ 0) (h0 : raw ≠ 0)
    (hp : SqlNumericI80F48.to_sql raw = some p) :
    ((SqlNumericU64.to_sql u).1.num_groups : Int)
        = (SqlNumericU64.to_sql u).1.weight - 0 + 1 ∧
    (SqlNumericU64.to_sql u).1.groups.length = (SqlNumericU64.to_sql u).1.num_groups ∧
    ((SqlNumericI128.to_sql v).1.num_groups : Int)
        = (SqlNumericI128.to_sql v).1.weight - 0 + 1 ∧
    (SqlNumericI128.to_sql v).1.groups.length = (SqlNumericI128.to_sql v).1.num_groups ∧
    (p.1.num_groups : Int) = p.1.weight - (-4) + 1 ∧
    p.1.groups.length = p.1.num_groups := by
  by_cases hmin : raw = -(2 ^ 127)
  · rw [hmin] at hp
    simp only [SqlNumericI80F48.to_sql, if_neg (by norm_num : ¬ -(2 ^ 127 : Int) = 0),
      if_pos rfl] at hp
    exact Option.noConfusion hp
  · rw [i80f48_to_sql_eq raw h0 hmin] at hp
    obtain rfl := Option.some.inj hp
    have ha : 0 < raw.natAbs := Int.natAbs_pos.mpr h0
    have hf4 := (i80f48_fgw_facts ha).1
    refine ⟨?_, ?_, ?_, ?_, ?_, ?_⟩
    · show (((if u ≠ 0 then int_log.u64 u else 0) / 4 + 1 : Nat) : Int)
        = (((if u ≠ 0 then int_log.u64 u else 0) / 4 : Nat) : Int) - 0 + 1
      push_cast
      ring
    · show (groupLoop u ((if u ≠ 0 then int_log.u64 u else 0) / 4)).length
        = (if u ≠ 0 then int_log.u64 u else 0) / 4 + 1
      exact groupLoop_length _ _
    · show (((if v ≠ 0 then int_log.u128 v.natAbs else 0) / 4 + 1 : Nat) : Int)
        = (((if v ≠ 0 then int_log.u128 v.natAbs else 0) / 4 : Nat) : Int) - 0 + 1
      push_cast
      ring
    · show (groupLoop v.natAbs ((if v ≠ 0 then int_log.u128 v.natAbs else 0) / 4)).length
        = (if v ≠ 0 then int_log.u128 v.natAbs else 0) / 4 + 1
      exact groupLoop_length _ _
    · show (((Int.fdiv (fixedIntLog10 raw.natAbs) 4 - (-4) + 1).toNat : Nat) : Int)
        = Int.fdiv (fixedIntLog10 raw.natAbs) 4 - (-4) + 1
      omega
    · exact i80f48_groups_length h0

set_option maxRecDepth 10000 in
theorem c8_num_groups_witness :
    (12345 : Nat) ≠ 0 ∧ (12345678 : Int) ≠ 0 ∧ (-(2 ^ 48) : Int) ≠ 0 ∧
    SqlNumericI80F48.to_sql (-(2 ^ 48)) =
      some (WireRecord.mk 5 0 0x4000 16 [1, 0, 0, 0, 0], IsNull.no) ∧
    (((SqlNumericU64.to_sql 12345).1.num_groups : Int)
        = (SqlNumericU64.to_sql 12345).1.weight - 0 + 1 ∧
     (SqlNumericU64.to_sql 12345).1.groups.length
        = (SqlNumericU64.to_sql 12345).1.num_groups ∧
     ((SqlNumericI128.to_sql 12345678).1.num_groups : Int)
        = (SqlNumericI128.to_sql 12345678).1.weight - 0 + 1 ∧
     (SqlNumericI128.to_sql 12345678).1.groups.length
        = (SqlNumericI128.to_sql 12345678).1.num_groups ∧
     ((WireRecord.mk 5 0 0x4000 16 [1, 0, 0, 0, 0], IsNull.no).1.num_groups : Int)
        = (WireRecord.mk 5 0 0x4000 16 [1, 0, 0, 0, 0], IsNull.no).1.weight - (-4) + 1 ∧
     (WireRecord.mk 5 0 0x4000 16 [1, 0, 0, 0, 0], IsNull.no).1.groups.length
        = (WireRecord.mk 5 0 0x4000 16 [1, 0, 0, 0, 0], IsNull.no).1.num_groups) :=
  ⟨by norm_num, by norm_num, by norm_num, by decide,
    c8_num_groups 12345 12345678 (-(2 ^ 48))
      (WireRecord.mk 5 0 0x4000 16 [1, 0, 0, 0, 0], IsNull.no)
      (by norm_num) (by norm_num) (by norm_num) (by decide)⟩

/-- C9: for every magnitude below 10000^(w+1), which is what the encoder
weight derivations guarantee for their top weight w, the group emitted at
offset i of the emission loop equals
floor(magnitude / 10000^(w-i)) mod 10000; in particular the 0xFFFF masking
of the source is equivalent to mod 10000, and subtracting the contribution
of each group makes later groups operate on the remainder. -/
theorem c9_group_digits (ip w : Nat) (h : ip < 10000 ^ (w + 1)) :
    groupLoop ip w = (List.range (w + 1)).map (fun i => ip / 10000 ^ (w - i) % 10000) :=
  groupLoop_eq_digits ip w h

theorem c9_group_digits_witness :
    (123456789 : Nat) < 10000 ^ (2 + 1) ∧
    groupLoop 123456789 2 =
      (List.range (2 + 1)).map (fun i => 123456789 / 10000 ^ (2 - i) % 10000) :=
  ⟨by norm_num, c9_group_digits 123456789 2 (by norm_num)⟩

/-- C10: on every input on which it returns, to_sql of each of the three
numeric wrappers returns Ok(IsNull::No): no value, including zero, is ever
reported as SQL NULL, and no error value is ever constructed (every return
site of the source is Ok(IsNull::No), which is the IsNull component paired
with the record in this model). -/
theorem c10_ok_not_null (u : Nat) (v raw : Int) (p : WireRecord × IsNull)
    (hp : SqlNumericI80F48.to_sql raw = some p) :
    (SqlNumericU64.to_sql u).2 = IsNull.no ∧
    (SqlNumericI128.to_sql v).2 = IsNull.no ∧ p.2 = IsNull.no := by
  refine ⟨rfl, rfl, ?_⟩
  by_cases h0 : raw = 0
  · subst h0
    simp [SqlNumericI80F48.to_sql] at hp
    obtain rfl := hp
    rfl
  · by_cases hmin : raw = -(2 ^ 127)
    · rw [hmin] at hp
      simp only [SqlNumericI80F48.to_sql, if_neg (by norm_num : ¬ -(2 ^ 127 : Int) = 0),
        if_pos rfl] at hp
      exact Option.noConfusion hp
    · rw [i80f48_to_sql_eq raw h0 hmin] at hp
      obtain rfl := Option.some.inj hp
      rfl

set_option maxRecDepth 10000 in
theorem c10_ok_not_null_witness :
    SqlNumericI80F48.to_sql 5 = some (WireRecord.mk 1 (-4) 0 16 [177], IsNull.no) ∧
    ((SqlNumericU64.to_sql 42).2 = IsNull.no ∧
     (SqlNumericI128.to_sql (-42)).2 = IsNull.no ∧
     (WireRecord.mk 1 (-4) 0 16 [177], IsNull.no).2 = IsNull.no) :=
  ⟨by decide,
    c10_ok_not_null 42 (-42) 5 (WireRecord.mk 1 (-4) 0 16 [177], IsNull.no) (by decide)⟩

-- Concrete scenarios listed in section 8 of the specification, checked by
-- evaluation.
example : SqlNumericU64.to_sql 0 =
    ({ num_groups := 1, weight := 0, sign := 0, dscale := 0, groups := [0] }, IsNull.no) := by
  decide

example : SqlNumericI128.to_sql 12345 =
    ({ num_groups := 2, weight := 1, sign := 0, dscale := 0, groups := [1, 2345] }, IsNull.no) := by
  decide

example : SqlNumericI80F48.to_sql (2 ^ 48) =
    some ({ num_groups := 5, weight := 0, sign := 0, dscale := 16,
            groups := [1, 0, 0, 0, 0] }, IsNull.no) := by
  decide

example : SqlNumericI80F48.to_sql (-(2 ^ 48)) =
    some ({ num_groups := 5, weight := 0, sign := 0x4000, dscale := 16,
            groups := [1, 0, 0, 0, 0] }, IsNull.no) := by
  decide
